import Mathlib

/-
Verification development for the BatteryCycleiOS repository
(src/BatteryCycleiOS.cpp).  The C sources are shallowly embedded here:
C strings become `List Char` values (a C string has no interior NUL, so the
list models the bytes up to the terminator), machine integers become
`Int`/`Nat` with explicit wrap-around where it matters, and fallible code
returns `Option` or a small result inductive carrying the exact C error
codes.  Each definition mirrors one function or loop of the source and is
annotated with the source lines it embeds.
-/

set_option maxRecDepth 10000

/-- The NUL character; C strings terminate on it. -/
def nulC : Char := Char.ofNat 0

/-! ## CSV field accessor: nGetCSVDataByColName (src lines 143-382) -/

/-- Characters skipped by the leading-trim loops of nGetCSVDataByColName
(lines 201-202, 224-225, 321-322, 354-355): space, tab, double quote. -/
def isLeadTrimB (c : Char) : Bool := c = ' ' || c = '\t' || c = '"'

/-- Characters removed by the trailing-trim loops of nGetCSVDataByColName
(lines 205-207, 228-230, 325-328, 357-361): space, tab, double quote,
carriage return. -/
def isTrailTrimB (c : Char) : Bool := c = ' ' || c = '\t' || c = '"' || c = '\r'

/-- Remove the longest suffix whose characters all satisfy p. -/
def dropTrailing (p : Char → Bool) : List Char → List Char
  | [] => []
  | c :: rest =>
    match dropTrailing p rest with
    | [] => if p c then [] else [c]
    | r => c :: r

/-- The trailing-trim loop of nGetCSVDataByColName (e.g. lines 324-330):
`pEnd` walks back from the last character while it is trimmable but stops
when `pEnd` reaches the first character, so the first character is never
removed. -/
def trimTrail : List Char → List Char
  | [] => []
  | c :: rest => c :: dropTrailing isTrailTrimB rest

/-- Full token trim as performed by nGetCSVDataByColName on every emitted
token: leading-trim loop followed by the trailing-trim loop. -/
def trimTok (s : List Char) : List Char := trimTrail (s.dropWhile isLeadTrimB)

/-- Trim as worded by the specification (section 4.6): strip surrounding
spaces/tabs/quotes and trailing carriage returns, with no first-character
exception.  Used only to compare the source behaviour against the spec. -/
def specTrim (s : List Char) : List Char :=
  dropTrailing isTrailTrimB (s.dropWhile isLeadTrimB)

/-- Text up to (excluding) the first newline; the whole text if none.
Mirrors the header/row delimiting via strchr(s, newline) (lines 174-178,
294-298). -/
def takeUntilNl : List Char → List Char
  | [] => []
  | c :: rest => if c = '\n' then [] else c :: takeUntilNl rest

/-- Text after the first newline, if any; mirrors strchr + 1 stepping
(lines 258, 265-271). -/
def findNl : List Char → Option (List Char)
  | [] => none
  | c :: rest => if c = '\n' then some rest else findNl rest

/-- Row skipping for a non-negative requested row (lines 263-274): skip
exactly n newline-delimited lines, failing when the text ends first. -/
def skipRows : Nat → List Char → Option (List Char)
  | 0, s => some s
  | n + 1, s =>
    match findNl s with
    | none => none
    | some rest => skipRows n rest

/-- The last-row scan of nGetCSVDataByColName (lines 275-290).  The C loop
keeps `pLastRowStart` (second argument), sets it to the current position
each time a newline is found, advances past that newline (third argument
tracks the current segment start), and on loop exit rewinds to
`pLastRowStart`.  The first argument is the scanning cursor. -/
def lastRowGo : List Char → List Char → List Char → List Char
  | [], pLast, _ => pLast
  | c :: rest, pLast, curStart =>
    if c = '\n' then lastRowGo rest curStart rest else lastRowGo rest pLast curStart

/-- Start of the row selected by nRow = -1 (lines 275-290). -/
def lastRowStart (s : List Char) : List Char := lastRowGo s s s

/-- Header tokenization loop of nGetCSVDataByColName (lines 185-237):
walks the header, toggling the in-quotes flag on a double quote, emitting
a trimmed token at every unquoted comma while fewer than MAX_COLUMNS = 256
columns have been stored, and storing the final token only when the loop
ended with fewer than 256 columns. -/
def tokHeader : List Char → Bool → List Char → Nat → List (List Char)
  | [], _, cur, cnt => if cnt < 256 then [trimTok cur.reverse] else []
  | c :: rest, inQ, cur, cnt =>
    if 256 ≤ cnt then []
    else if c = '"' then tokHeader rest (!inQ) (c :: cur) cnt
    else if c = ',' ∧ inQ = false then trimTok cur.reverse :: tokHeader rest inQ [] (cnt + 1)
    else tokHeader rest inQ (c :: cur) cnt

/-- Row tokenization loop of nGetCSVDataByColName (lines 304-374): walks
the selected row with the same quote rule, returning the trimmed token of
the target column, or none when the row has fewer fields than the target
index (the C code then returns -4). -/
def rowFieldGo : List Char → Bool → List Char → Nat → Nat → Option (List Char)
  | [], _, cur, col, target => if col = target then some (trimTok cur.reverse) else none
  | c :: rest, inQ, cur, col, target =>
    if c = '"' then rowFieldGo rest (!inQ) (c :: cur) col target
    else if c = ',' ∧ inQ = false then
      (if col = target then some (trimTok cur.reverse)
       else rowFieldGo rest inQ [] (col + 1) target)
    else rowFieldGo rest inQ (c :: cur) col target

/-- Field of the given row at the target column index. -/
def rowField (row : List Char) (target : Nat) : Option (List Char) :=
  rowFieldGo row false [] 0 target

/-- Specification-side quote-aware field splitter (section 4.6 of the
spec): split at commas seen while the quote flag is off; quote characters
toggle the flag and stay in the raw field.  Used to state refinement
theorems about the header and row loops. -/
def splitFieldsGo : List Char → Bool → List Char → List (List Char)
  | [], _, cur => [cur.reverse]
  | c :: rest, inQ, cur =>
    if c = '"' then splitFieldsGo rest (!inQ) (c :: cur)
    else if c = ',' ∧ inQ = false then cur.reverse :: splitFieldsGo rest inQ []
    else splitFieldsGo rest inQ (c :: cur)

/-- Quote-aware splitting of a whole line into raw (untrimmed) fields. -/
def splitFields (s : List Char) : List (List Char) := splitFieldsGo s false []

/-- Header line of the CSV buffer (lines 174-182). -/
def headerOf (buf : List Char) : List Char := takeUntilNl buf

/-- Column names recorded from the header (lines 185-237). -/
def colsOf (buf : List Char) : List (List Char) := tokHeader (headerOf buf) false [] 0

/-- Text after the header line (line 258).  When the buffer has no newline
the C code advances one past the terminating NUL and reads out of bounds
(undefined behaviour); the model continues with the empty tail, a case no
claim exercises. -/
def afterHdrOf (buf : List Char) : List Char := (findNl buf).getD []

/-- Row selection (lines 260-290): non-negative nRow skips that many
lines; nRow = -1 runs the last-row scan; any other negative nRow falls
through both branches and stays at the first data row. -/
def selectedRow (nRow : Int) (afterHdr : List Char) : Option (List Char) :=
  if 0 ≤ nRow then skipRows nRow.toNat afterHdr
  else some (if nRow = -1 then lastRowStart afterHdr else afterHdr)

/-- Result of nGetCSVDataByColName: ok with the copied value, or the C
error code (-1 invalid parameters, -3 column name not found in header,
-4 column not found in row, -5 row not found, -6 value truncated by
strncpy_s). -/
inductive CsvResult where
  | ok (v : List Char)
  | err (code : Int)
deriving DecidableEq

/-- Embedding of nGetCSVDataByColName (lines 143-382).  The NULL-pointer
checks have no counterpart on total values; nBufSize = 0 yields -1 as in
the C guard nBufSize <= 0.  The final strncpy_s with _TRUNCATE returns a
nonzero status when the value does not fit in nBufSize - 1 characters, in
which case the C code returns -6. -/
def nGetCSVDataByColName (szCsvBuffer : List Char) (nRow : Int)
    (szColName : List Char) (nBufSize : Nat) : CsvResult :=
  if nBufSize = 0 then .err (-1)
  else
    match (colsOf szCsvBuffer).findIdx? (· == szColName) with
    | none => .err (-3)
    | some nTargetCol =>
      match selectedRow nRow (afterHdrOf szCsvBuffer) with
      | none => .err (-5)
      | some rowStart =>
        match rowField (takeUntilNl rowStart) nTargetCol with
        | none => .err (-4)
        | some v => if nBufSize ≤ v.length then .err (-6) else .ok v

/-! ## Octal field parser: ulParseOctal (src lines 78-92) -/

/-- Padding characters skipped by the first loop of ulParseOctal
(line 83): space and NUL. -/
def isPadB (c : Char) : Bool := c = ' ' || c = nulC

/-- Octal digit test used by the second loop of ulParseOctal (line 86). -/
def isOctB (c : Char) : Bool := '0' ≤ c && c ≤ '7'

/-- Byte read szStr[i]; the header field occupies nSize bytes of memory,
modelled by a list of at least nSize characters (reads beyond the list
default to NUL). -/
def byteAt (s : List Char) (i : Nat) : Char := s.getD i nulC

/-- First loop of ulParseOctal (line 83): advance the index over spaces
and NULs while it stays below nSize; fuel = nSize - i. -/
def octSkip (s : List Char) : Nat → Nat → Nat
  | 0, i => i
  | fuel + 1, i => if isPadB (byteAt s i) then octSkip s fuel (i + 1) else i

/-- Second loop of ulParseOctal (lines 85-89): accumulate octal digits,
stopping at a space, NUL or non-octal byte or when the width runs out.
The accumulator wraps like the 32-bit unsigned long of the MSVC target. -/
def octAccum (s : List Char) : Nat → Nat → Nat → Nat
  | 0, _, acc => acc
  | fuel + 1, i, acc =>
    if byteAt s i = ' ' ∨ byteAt s i = nulC then acc
    else if byteAt s i < '0' ∨ '7' < byteAt s i then acc
    else octAccum s fuel (i + 1) ((acc * 8 + ((byteAt s i).toNat - 48)) % 4294967296)

/-- Embedding of ulParseOctal (lines 78-92). -/
def ulParseOctal (szStr : List Char) (nSize : Nat) : Nat :=
  octAccum szStr (nSize - octSkip szStr nSize 0) (octSkip szStr nSize 0) 0

/-- Specification-side description of the octal parser (spec section 4.1):
within the first nSize bytes, drop leading space/NUL padding, take the
run of octal digits, and fold them into a wrapped accumulator. -/
def ocSpec (s : List Char) (nSize : Nat) : Nat :=
  (((s.take nSize).dropWhile isPadB).takeWhile isOctB).foldl
    (fun a c => (a * 8 + (c.toNat - 48)) % 4294967296) 0

/-! ## Date parser: bParseDate (src lines 588-631) -/

/-- Whitespace skipped by a scanf %d conversion: the C isspace set
(space, tab, newline, vertical tab, form feed, carriage return, by
character code). -/
def isWsB (c : Char) : Bool :=
  c.toNat = 32 || c.toNat = 9 || c.toNat = 10 || c.toNat = 11 ||
  c.toNat = 12 || c.toNat = 13

/-- Decimal digit test by character code. -/
def isDigB (c : Char) : Bool := 48 ≤ c.toNat && c.toNat ≤ 57

/-- Consume a maximal run of decimal digits, accumulating their value. -/
def digitRun : List Char → Nat → Nat × List Char
  | [], acc => (acc, [])
  | c :: rest, acc =>
    if isDigB c then digitRun rest (acc * 10 + (c.toNat - 48)) else (acc, c :: rest)

/-- Unsigned part of a %d conversion: at least one digit is required. -/
def scanUIntCore : List Char → Option (Nat × List Char)
  | [] => none
  | c :: rest => if isDigB c then some (digitRun (c :: rest) 0) else none

/-- A scanf %d conversion: skip whitespace, then an optional sign and a
nonempty digit run.  Overflow of the C int is undefined behaviour and is
not modelled (values stay exact). -/
def scanInt (s : List Char) : Option (Int × List Char) :=
  match s.dropWhile isWsB with
  | [] => none
  | c :: rest =>
    if c = '-' then (scanUIntCore rest).map (fun p => (-(p.1 : Int), p.2))
    else if c = '+' then (scanUIntCore rest).map (fun p => ((p.1 : Int), p.2))
    else (scanUIntCore (c :: rest)).map (fun p => ((p.1 : Int), p.2))

/-- A literal (non-whitespace) character of a scanf format: it must match
the next input character exactly. -/
def litCh (c : Char) : List Char → Option (List Char)
  | [] => none
  | x :: rest => if x = c then some rest else none

/-- The sscanf_s call of bParseDate (line 594) with format
%d-%d-%d_%d:%d:%d: six %d conversions separated by the literal
characters; input after the last conversion is ignored.  none models a
return value below 6. -/
def sscanfDate (s : List Char) : Option (Int × Int × Int × Int × Int × Int) :=
  match scanInt s with
  | none => none
  | some (y, r1) =>
    match litCh '-' r1 with
    | none => none
    | some r2 =>
      match scanInt r2 with
      | none => none
      | some (mo, r3) =>
        match litCh '-' r3 with
        | none => none
        | some r4 =>
          match scanInt r4 with
          | none => none
          | some (d, r5) =>
            match litCh '_' r5 with
            | none => none
            | some r6 =>
              match scanInt r6 with
              | none => none
              | some (h, r7) =>
                match litCh ':' r7 with
                | none => none
                | some r8 =>
                  match scanInt r8 with
                  | none => none
                  | some (mi, r9) =>
                    match litCh ':' r9 with
                    | none => none
                    | some r10 =>
                      match scanInt r10 with
                      | none => none
                      | some (se, _) => some (y, mo, d, h, mi, se)

/-- Days since 1970-01-01 of a civil date (the standard days-from-civil
computation); months are normalized 1..12 here, and a day beyond the
month length simply adds further days, matching mktime normalization. -/
def daysFromCivil (y m d : Int) : Int :=
  let y1 := if m ≤ 2 then y - 1 else y
  let era := Int.fdiv y1 400
  let yoe := y1 - era * 400
  let mp := Int.emod (m + 9) 12
  let doy := Int.fdiv (153 * mp + 2) 5 + d - 1
  let doe := yoe * 365 + Int.fdiv yoe 4 - Int.fdiv yoe 100 + doy
  era * 146097 + doe - 719468

/-- Model of the mktime call of bParseDate (lines 615-624): convert the
validated components to seconds since the epoch.  mktime uses local time;
the model uses the UTC-style civil conversion, which is total on the
range-checked components (the C11 normalization of out-of-calendar days
such as February 31 is reproduced by the day arithmetic). -/
def mktimeModel (y mo d h mi s : Int) : Int :=
  daysFromCivil y mo d * 86400 + h * 3600 + mi * 60 + s

/-- Embedding of fileDateT (src lines 52-61). -/
structure FileDateV where
  nYear : Int
  nMonth : Int
  nDay : Int
  nHour : Int
  nMinute : Int
  nSecond : Int
  szFilename : List Char
  tTimestamp : Int
deriving DecidableEq

/-- Result of bParseDate.  The C function returns 0 on every failure but
takes distinct paths: malformed models the sscanf_s result below 6
(lines 598-601), outOfRange the component validation failure
(lines 604-612). -/
inductive DateRes where
  | ok (d : FileDateV)
  | malformed
  | outOfRange
deriving DecidableEq

/-- Embedding of bParseDate (lines 588-631): sscanf_s with
%d-%d-%d_%d:%d:%d, then the component range checks, then the mktime
conversion (which never fails on range-checked components in the model).
The filename field is left empty; the caller fills it. -/
def bParseDate (szDateStr : List Char) : DateRes :=
  match sscanfDate szDateStr with
  | none => .malformed
  | some (y, mo, d, h, mi, se) =>
    if y < 1970 ∨ 2100 < y ∨ mo < 1 ∨ 12 < mo ∨ d < 1 ∨ 31 < d ∨
       h < 0 ∨ 23 < h ∨ mi < 0 ∨ 59 < mi ∨ se < 0 ∨ 59 < se
    then .outOfRange
    else .ok ⟨y, mo, d, h, mi, se, [], mktimeModel y mo d h mi se⟩

/-- Numeric value of a digit character. -/
def digitValN (c : Char) : Nat := c.toNat - 48

/-- The strict filename-date shape demanded by the specification
(section 4.4): exactly YYYY-MM-DD_HH:MM:SS, four digits then two digits
per field, literal separators, and nothing else.  Used to compare the
source behaviour against the spec. -/
def strictShapeParse (s : List Char) : Option (Int × Int × Int × Int × Int × Int) :=
  match s with
  | [y1, y2, y3, y4, c1, m1, m2, c2, d1, d2, c3, h1, h2, c4, n1, n2, c5, s1, s2] =>
    if isDigB y1 ∧ isDigB y2 ∧ isDigB y3 ∧ isDigB y4 ∧
       isDigB m1 ∧ isDigB m2 ∧ isDigB d1 ∧ isDigB d2 ∧
       isDigB h1 ∧ isDigB h2 ∧ isDigB n1 ∧ isDigB n2 ∧
       isDigB s1 ∧ isDigB s2 ∧
       c1 = '-' ∧ c2 = '-' ∧ c3 = '_' ∧ c4 = ':' ∧ c5 = ':'
    then some
      (((((digitValN y1 * 10 + digitValN y2) * 10 + digitValN y3) * 10 + digitValN y4 : Nat) : Int),
       ((digitValN m1 * 10 + digitValN m2 : Nat) : Int),
       ((digitValN d1 * 10 + digitValN d2 : Nat) : Int),
       ((digitValN h1 * 10 + digitValN h2 : Nat) : Int),
       ((digitValN n1 * 10 + digitValN n2 : Nat) : Int),
       ((digitValN s1 * 10 + digitValN s2 : Nat) : Int))
    else none
  | _ => none

/-- The component range check of bParseDate (lines 604-609), as a
reusable predicate. -/
def dateInRange (y mo d h mi se : Int) : Prop :=
  1970 ≤ y ∧ y ≤ 2100 ∧ 1 ≤ mo ∧ mo ≤ 12 ∧ 1 ≤ d ∧ d ≤ 31 ∧
  0 ≤ h ∧ h ≤ 23 ∧ 0 ≤ mi ∧ mi ≤ 59 ∧ 0 ≤ se ∧ se ≤ 59

instance (y mo d h mi se : Int) : Decidable (dateInRange y mo d h mi se) := by
  unfold dateInRange; infer_instance

/-! ## Tar archive reader and latest-file selection (src lines 100-132,
392-547, 639-745) -/

/-- strncmp(s, p, strlen(p)) == 0: p is a leading run of s. -/
def leadsWith : List Char → List Char → Bool
  | [], _ => true
  | _ :: _, [] => false
  | p :: ps, c :: cs => p = c && leadsWith ps cs

/-- strstr(hay, pat) != NULL: pat occurs contiguously inside hay. -/
def strstrB : List Char → List Char → Bool
  | [], pat => leadsWith pat []
  | c :: t, pat => leadsWith pat (c :: t) || strstrB t pat

/-- The path-traversal test of nExtractFromTargzWithCallback (line 432):
the entry name contains "../" or "..\\". -/
def isUnsafeName (szName : List Char) : Bool :=
  strstrB szName ("../").data || strstrB szName ("..\\").data

/-- Embedding of bIsInDirectory (lines 100-132): when the directory does
not already end in a separator, a slash is appended before the leading
comparison. -/
def bIsInDirectory (szPath szTargetDir : List Char) : Bool :=
  if szTargetDir ≠ [] ∧ szTargetDir.getLast? ≠ some '/' ∧ szTargetDir.getLast? ≠ some '\\'
  then leadsWith (szTargetDir ++ ['/']) szPath
  else leadsWith szTargetDir szPath

/-- Base filename of an entry (lines 452-456): the text after the last
forward slash, the whole name when there is none. -/
def baseNameOf (szName : List Char) : List Char :=
  szName.foldl (fun acc c => if c = '/' then [] else acc ++ [c]) []

/-- The tar header fields read by the extraction loop (struct tarHeaderT,
lines 29-47): the entry name, the octal size field (12 bytes of memory)
and the type flag.  The remaining metadata fields are never read by the
embedded logic. -/
structure TarHeaderT where
  szName : List Char
  szSize : List Char
  cTypeflag : Char
deriving DecidableEq

/-- Content blocks of an entry (lines 435-436, 442-445):
ceil(size / 512) with size decoded by ulParseOctal. -/
def nBlocksOf (h : TarHeaderT) : Nat :=
  (ulParseOctal h.szSize 12 + 512 - 1) / 512

/-- Observable actions of the extraction loop, in stream order: a
diagnostic warning for an unsafe path, a matcher callback invocation, the
extraction of an entry content, and a seek past a number of data
blocks. -/
inductive TarEvent where
  | warnUnsafe (szName : List Char)
  | matcherQuery (szFilename : List Char)
  | extract (szFilename : List Char)
  | skipData (nBlocks : Nat)
deriving DecidableEq

/-- Embedding of the main loop of nExtractFromTargzWithCallback
(lines 392-547) over a well-formed decompressed stream, given as the list
of entry headers (content bytes are not modelled; extraction is the
observable event).  The callback receives the base filename and the user
data and returns its decision plus the updated user data.  A header whose
name starts with NUL (empty name) ends the archive (lines 425-429).  In
this program the consumer breaks out of the loop right after the one
extraction (line 531), so an accepted entry terminates the scan. -/
def nExtractFromTargzWithCallback {σ : Type} (pfnMatcher : List Char → σ → Bool × σ)
    (szTargetDir : List Char) : List TarHeaderT → σ → List TarEvent × σ
  | [], st => ([], st)
  | h :: rest, st =>
    if h.szName = [] then ([], st)
    else if isUnsafeName h.szName then
      (.warnUnsafe h.szName :: .skipData (nBlocksOf h) ::
        (nExtractFromTargzWithCallback pfnMatcher szTargetDir rest st).1,
       (nExtractFromTargzWithCallback pfnMatcher szTargetDir rest st).2)
    else if (h.cTypeflag = '0' ∨ h.cTypeflag = nulC) ∧ bIsInDirectory h.szName szTargetDir then
      if baseNameOf h.szName = [] then
        (.skipData (nBlocksOf h) ::
          (nExtractFromTargzWithCallback pfnMatcher szTargetDir rest st).1,
         (nExtractFromTargzWithCallback pfnMatcher szTargetDir rest st).2)
      else if (pfnMatcher (baseNameOf h.szName) st).1 = false then
        (.matcherQuery (baseNameOf h.szName) :: .skipData (nBlocksOf h) ::
          (nExtractFromTargzWithCallback pfnMatcher szTargetDir rest
            ((pfnMatcher (baseNameOf h.szName) st).2)).1,
         (nExtractFromTargzWithCallback pfnMatcher szTargetDir rest
            ((pfnMatcher (baseNameOf h.szName) st).2)).2)
      else
        ([.matcherQuery (baseNameOf h.szName), .extract (baseNameOf h.szName)],
         (pfnMatcher (baseNameOf h.szName) st).2)
    else
      (.skipData (nBlocksOf h) ::
        (nExtractFromTargzWithCallback pfnMatcher szTargetDir rest st).1,
       (nExtractFromTargzWithCallback pfnMatcher szTargetDir rest st).2)

/-- The base filenames handed to the matcher callback by the loop, in
stream order, for a callback that never accepts (the observation pass). -/
def matcherCalls (szTargetDir : List Char) : List TarHeaderT → List (List Char)
  | [] => []
  | h :: rest =>
    if h.szName = [] then []
    else if isUnsafeName h.szName then matcherCalls szTargetDir rest
    else if (h.cTypeflag = '0' ∨ h.cTypeflag = nulC) ∧ bIsInDirectory h.szName szTargetDir then
      (if baseNameOf h.szName = [] then matcherCalls szTargetDir rest
       else baseNameOf h.szName :: matcherCalls szTargetDir rest)
    else matcherCalls szTargetDir rest

/-- Embedding of matcherDataT (lines 66-70); the field szPref models the
prefix member of the C struct. -/
structure MatcherDataT where
  szPref : List Char
  stLatestFile : FileDateV
  bFoundMatch : Bool
deriving DecidableEq

/-- strchr(s, underscore) followed by the increment past it
(lines 653-659): the text after the first underscore. -/
def findUnderscore : List Char → Option (List Char)
  | [] => none
  | c :: rest => if c = '_' then some rest else findUnderscore rest

/-- Embedding of bLatestBdcDailyMatcher (lines 639-684): check the
filename against the configured leading text, locate the date part after
the next underscore, copy the filename (strncpy_s with _TRUNCATE fails,
and the candidate is dropped, when the name exceeds MAX_PATH_LENGTH - 1 =
259 characters), parse the date, and keep the candidate when it is the
first match or strictly newer than the recorded one.  Always returns
false: pass 1 never extracts. -/
def bLatestBdcDailyMatcher (szFilename : List Char) (pData : MatcherDataT) :
    Bool × MatcherDataT :=
  if leadsWith pData.szPref szFilename = false then (false, pData)
  else
    match findUnderscore (szFilename.drop pData.szPref.length) with
    | none => (false, pData)
    | some szDatePart =>
      if 259 < szFilename.length then (false, pData)
      else
        match bParseDate szDatePart with
        | .ok d =>
          let stCurrentFile := { d with szFilename := szFilename }
          if pData.bFoundMatch = false ∨
             pData.stLatestFile.tTimestamp < stCurrentFile.tTimestamp
          then (false, { pData with stLatestFile := stCurrentFile, bFoundMatch := true })
          else (false, pData)
        | _ => (false, pData)

/-- The candidate record the matcher computes for one filename, when all
of its checks pass: the same tests in the same order as
bLatestBdcDailyMatcher, without the state update. -/
def candDate (pre szFilename : List Char) : Option FileDateV :=
  if leadsWith pre szFilename = false then none
  else
    match findUnderscore (szFilename.drop pre.length) with
    | none => none
    | some szDatePart =>
      if 259 < szFilename.length then none
      else
        match bParseDate szDatePart with
        | .ok d => some { d with szFilename := szFilename }
        | _ => none

/-- The state update of bLatestBdcDailyMatcher (lines 677-680), factored
over the optional candidate. -/
def matcherStep (pData : MatcherDataT) : Option FileDateV → MatcherDataT
  | none => pData
  | some cur =>
    if pData.bFoundMatch = false ∨ pData.stLatestFile.tTimestamp < cur.tTimestamp
    then { pData with stLatestFile := cur, bFoundMatch := true }
    else pData

/-- Embedding of bExtractLatestFileMatcher (lines 692-700): accept
exactly the recorded winner filename; no state change. -/
def bExtractLatestFileMatcher (szFilename : List Char) (pData : MatcherDataT) :
    Bool × MatcherDataT :=
  (szFilename == pData.stLatestFile.szFilename, pData)

/-- The fixed filename leading text of the selection (line 720). -/
def bdcPre : List Char := ("BDC_Daily_version").data

/-- The fixed target directory (line 761). -/
def bdcDir : List Char := ("logs/BatteryBDC/").data

/-- memset-zeroed fileDateT: all components 0, empty filename. -/
def zeroFileDate : FileDateV := ⟨0, 0, 0, 0, 0, 0, [], 0⟩

/-- The matcher data set up by nExtractLatestBdcDailyFile
(lines 718-721). -/
def initMatcherData : MatcherDataT := ⟨bdcPre, zeroFileDate, false⟩

/-- Embedding of nExtractLatestBdcDailyFile (lines 708-745): pass 1 scans
with the observing matcher (the stream model has no read errors, so the
pass-1 return value is 0); when no match was recorded the function
returns -1 (NoMatchingFile); otherwise pass 2 re-scans from the start
accepting only the winner.  The second component collects the observable
events of both passes. -/
def nExtractLatestBdcDailyFile (entries : List TarHeaderT) : Int × List TarEvent :=
  let pass1 := nExtractFromTargzWithCallback bLatestBdcDailyMatcher bdcDir entries initMatcherData
  if pass1.2.bFoundMatch = false then (-1, pass1.1)
  else
    let pass2 := nExtractFromTargzWithCallback bExtractLatestFileMatcher bdcDir entries pass1.2
    (0, pass1.1 ++ pass2.1)

/-- w is the first element of l carrying the maximal timestamp: some
split of l puts w between a block of strictly older records and a block
of records no newer than w. -/
def IsFirstMax (l : List FileDateV) (w : FileDateV) : Prop :=
  ∃ l1 l2, l = l1 ++ w :: l2 ∧ (∀ d ∈ l1, d.tTimestamp < w.tTimestamp) ∧
    (∀ d ∈ l2, d.tTimestamp ≤ w.tTimestamp)

/-! ## Lemmas about the octal parser -/

theorem byteAt_eq_getElem {s : List Char} {i : Nat} (hi : i < s.length) :
    byteAt s i = s[i] := by
  simp [byteAt, List.getD, List.getElem?_eq_getElem hi]

theorem byteAt_take_eq {s t : List Char} {n i : Nat} (hst : s.take n = t.take n)
    (hi : i < n) : byteAt s i = byteAt t i := by
  have h1 : s[i]? = t[i]? := by
    have hs := List.getElem?_take (l := s) (n := n) (m := i)
    have ht := List.getElem?_take (l := t) (n := n) (m := i)
    rw [if_pos hi] at hs ht
    rw [← hs, ← ht, hst]
  simp [byteAt, List.getD, h1]

theorem octSkip_le (s : List Char) : ∀ fuel i, octSkip s fuel i ≤ i + fuel := by
  intro fuel
  induction fuel with
  | zero => intro i; simp [octSkip]
  | succ f ih =>
    intro i
    unfold octSkip
    split
    · have := ih (i + 1); omega
    · omega

theorem octSkip_congr {s t : List Char} {n : Nat} (hst : s.take n = t.take n) :
    ∀ fuel i, i + fuel ≤ n → octSkip s fuel i = octSkip t fuel i := by
  intro fuel
  induction fuel with
  | zero => intro i _; rfl
  | succ f ih =>
    intro i hle
    have hb : byteAt s i = byteAt t i := byteAt_take_eq hst (by omega)
    unfold octSkip
    rw [hb]
    split
    · exact ih (i + 1) (by omega)
    · rfl

theorem octAccum_congr {s t : List Char} {n : Nat} (hst : s.take n = t.take n) :
    ∀ fuel i acc, i + fuel ≤ n → octAccum s fuel i acc = octAccum t fuel i acc := by
  intro fuel
  induction fuel with
  | zero => intro i acc _; rfl
  | succ f ih =>
    intro i acc hle
    have hb : byteAt s i = byteAt t i := byteAt_take_eq hst (by omega)
    unfold octAccum
    rw [hb]
    split
    · rfl
    · split
      · rfl
      · exact ih (i + 1) _ (by omega)

theorem ulParseOctal_take (s : List Char) (n : Nat) :
    ulParseOctal s n = ulParseOctal (s.take n) n := by
  have hst : s.take n = (s.take n).take n := by rw [List.take_take]; simp
  have hk : octSkip s n 0 = octSkip (s.take n) n 0 := octSkip_congr hst n 0 (by omega)
  unfold ulParseOctal
  rw [← hk]
  exact octAccum_congr hst (n - octSkip s n 0) (octSkip s n 0) 0
    (by have := octSkip_le s n 0; omega)

theorem dropWhile_eq_drop_len (p : Char → Bool) :
    ∀ l : List Char, l.dropWhile p = l.drop (l.takeWhile p).length := by
  intro l
  induction l with
  | nil => rfl
  | cons c rest ih =>
    by_cases hc : p c
    · simp [List.dropWhile, List.takeWhile, hc, ih]
    · simp [List.dropWhile, List.takeWhile, hc]

theorem octSkip_spec (s : List Char) :
    ∀ fuel i, i + fuel ≤ s.length →
      octSkip s fuel i = i + (((s.drop i).take fuel).takeWhile isPadB).length := by
  intro fuel
  induction fuel with
  | zero => intro i _; simp [octSkip]
  | succ f ih =>
    intro i hle
    have hi : i < s.length := by omega
    have hdrop : s.drop i = s[i] :: s.drop (i + 1) := List.drop_eq_getElem_cons hi
    have hb : byteAt s i = s[i] := byteAt_eq_getElem hi
    unfold octSkip
    rw [hb, hdrop]
    by_cases hp : isPadB s[i]
    · rw [if_pos hp]
      rw [ih (i + 1) (by omega)]
      simp [List.takeWhile, hp]
      omega
    · rw [if_neg hp]
      simp [List.takeWhile, hp]

theorem octAccum_spec (s : List Char) :
    ∀ fuel i acc, i + fuel ≤ s.length →
      octAccum s fuel i acc =
        (((s.drop i).take fuel).takeWhile isOctB).foldl
          (fun a c => (a * 8 + (c.toNat - 48)) % 4294967296) acc := by
  intro fuel
  induction fuel with
  | zero => intro i acc _; simp [octAccum]
  | succ f ih =>
    intro i acc hle
    have hi : i < s.length := by omega
    have hdrop : s.drop i = s[i] :: s.drop (i + 1) := List.drop_eq_getElem_cons hi
    have hb : byteAt s i = s[i] := byteAt_eq_getElem hi
    unfold octAccum
    rw [hb, hdrop]
    by_cases hoct : isOctB s[i]
    · have hoct2 : '0' ≤ s[i] ∧ s[i] ≤ '7' := by simpa [isOctB] using hoct
      have h1 : ¬(s[i] = ' ' ∨ s[i] = nulC) := by
        rintro (h2 | h2) <;> rw [h2] at hoct <;> revert hoct <;> decide
      have h2 : ¬(s[i] < '0' ∨ '7' < s[i]) := by
        push_neg
        exact hoct2
      rw [if_neg h1, if_neg h2]
      rw [ih (i + 1) _ (by omega)]
      simp [List.takeWhile, hoct]
    · have hoct2 : ¬('0' ≤ s[i] ∧ s[i] ≤ '7') := by
        intro hand
        simp [isOctB, hand.1, hand.2] at hoct
      by_cases hsp : s[i] = ' ' ∨ s[i] = nulC
      · rw [if_pos hsp]
        simp [List.takeWhile, hoct]
      · have h2 : s[i] < '0' ∨ '7' < s[i] := by
          rcases not_and_or.mp hoct2 with h | h
          · exact Or.inl (not_le.mp h)
          · exact Or.inr (not_le.mp h)
        rw [if_neg hsp, if_pos h2]
        simp [List.takeWhile, hoct]

theorem ulParseOctal_eq_ocSpec (s : List Char) (n : Nat) (h : n ≤ s.length) :
    ulParseOctal s n = ocSpec s n := by
  have hk := octSkip_spec s n 0 (by omega)
  simp only [List.drop_zero] at hk
  set k := octSkip s n 0 with hkdef
  have hkle : k ≤ n := by have := octSkip_le s n 0; omega
  unfold ulParseOctal
  rw [← hkdef]
  rw [octAccum_spec s (n - k) k 0 (by omega)]
  unfold ocSpec
  congr 1
  congr 1
  have h1 : (s.take n).drop k = (s.drop k).take (n - k) := List.drop_take n k s
  rw [← h1]
  rw [dropWhile_eq_drop_len isPadB (s.take n)]
  congr 1
  omega

/-- C7: for every field s of width n held in at least n bytes of memory,
ulParseOctal skips the leading space/NUL padding, accumulates the
following run of octal digits with 32-bit wrap, and stops at the first
non-octal, space or NUL byte or when the width runs out (first
conjunct); it never inspects a byte at an index at or beyond the width
(second conjunct: the result depends only on the first n bytes); it has
no error return, and an all-space or all-NUL field yields 0 (third
conjunct). -/
theorem c7_parse_octal_correct :
    (∀ s n, n ≤ s.length → ulParseOctal s n = ocSpec s n) ∧
    (∀ s n, ulParseOctal s n = ulParseOctal (s.take n) n) ∧
    (∀ w, ulParseOctal (List.replicate w ' ') w = 0 ∧
      ulParseOctal (List.replicate w nulC) w = 0) := by
  refine ⟨ulParseOctal_eq_ocSpec, ulParseOctal_take, fun w => ⟨?_, ?_⟩⟩
  · rw [ulParseOctal_eq_ocSpec _ _ (by simp)]
    unfold ocSpec
    rw [List.take_replicate]
    have hd : (List.replicate (min w w) ' ').dropWhile isPadB = [] := by
      rw [List.dropWhile_eq_nil_iff]
      intro x hx
      rw [List.eq_of_mem_replicate hx]
      decide
    rw [hd]
    rfl
  · rw [ulParseOctal_eq_ocSpec _ _ (by simp)]
    unfold ocSpec
    rw [List.take_replicate]
    have hd : (List.replicate (min w w) nulC).dropWhile isPadB = [] := by
      rw [List.dropWhile_eq_nil_iff]
      intro x hx
      rw [List.eq_of_mem_replicate hx]
      decide
    rw [hd]
    rfl

/-- Witness for C7: the 8-byte field "  123x45" satisfies the length
hypothesis, agrees with the specification description, and decodes to
octal 123 = 83. -/
theorem c7_parse_octal_correct_witness :
    8 ≤ (("  123x45").data).length ∧
    ulParseOctal (("  123x45").data) 8 = ocSpec (("  123x45").data) 8 ∧
    ulParseOctal (("  123x45").data) 8 = 83 :=
  ⟨by decide, c7_parse_octal_correct.1 (("  123x45").data) 8 (by decide), by decide⟩

/-! ## Lemmas and claims about the archive loop -/

/-- C8: an entry whose name contains a traversal pattern ("../" or
"..\\") is handled by emitting the diagnostic warning and seeking past
its ceil(size/512) content blocks; the matcher callback is never
consulted, nothing is extracted for it, and the scan continues with the
remaining entries with the user state untouched by this entry. -/
theorem c8_unsafe_entry_skipped {σ : Type} (m : List Char → σ → Bool × σ)
    (dir : List Char) (h : TarHeaderT) (rest : List TarHeaderT) (st : σ)
    (hu : isUnsafeName h.szName = true) :
    nExtractFromTargzWithCallback m dir (h :: rest) st =
      (TarEvent.warnUnsafe h.szName :: TarEvent.skipData (nBlocksOf h) ::
        (nExtractFromTargzWithCallback m dir rest st).1,
       (nExtractFromTargzWithCallback m dir rest st).2) := by
  have hne : ¬(h.szName = []) := by
    intro hnil
    rw [hnil] at hu
    revert hu
    decide
  conv_lhs => rw [nExtractFromTargzWithCallback]
  rw [if_neg hne, if_pos hu]

/-- Witness for C8: a concrete unsafe entry of size octal 777 (one
content block) produces exactly the warning and the one-block seek, and
the scan state is unchanged. -/
theorem c8_unsafe_entry_skipped_witness :
    isUnsafeName (("logs/BatteryBDC/a/../b.csv").data) = true ∧
    nExtractFromTargzWithCallback bLatestBdcDailyMatcher bdcDir
      [⟨("logs/BatteryBDC/a/../b.csv").data, ("777").data, '0'⟩] initMatcherData =
      ([TarEvent.warnUnsafe (("logs/BatteryBDC/a/../b.csv").data),
        TarEvent.skipData 1], initMatcherData) := by
  constructor
  · decide
  · rw [c8_unsafe_entry_skipped bLatestBdcDailyMatcher bdcDir
      ⟨("logs/BatteryBDC/a/../b.csv").data, ("777").data, '0'⟩ [] initMatcherData (by decide)]
    decide

/-! ## Lemmas about the CSV accessor -/

theorem rowFieldGo_spec :
    ∀ (s : List Char) (inQ : Bool) (cur : List Char) (col target : Nat), col ≤ target →
      rowFieldGo s inQ cur col target =
        ((splitFieldsGo s inQ cur)[target - col]?).map trimTok := by
  intro s
  induction s with
  | nil =>
    intro inQ cur col target hle
    unfold rowFieldGo splitFieldsGo
    by_cases h : col = target
    · subst h
      simp
    · have : 0 < target - col := by omega
      rw [if_neg h]
      rcases Nat.exists_eq_add_of_lt this with ⟨k, hk⟩
      rw [List.getElem?_cons]
      rw [if_neg (by omega)]
      simp
  | cons c rest ih =>
    intro inQ cur col target hle
    unfold rowFieldGo splitFieldsGo
    by_cases hq : c = '"'
    · rw [if_pos hq, if_pos hq]
      exact ih (!inQ) (c :: cur) col target hle
    · rw [if_neg hq, if_neg hq]
      by_cases hcm : c = ',' ∧ inQ = false
      · rw [if_pos hcm, if_pos hcm]
        by_cases h : col = target
        · subst h
          simp
        · rw [if_neg h]
          have h1 : target - col = (target - (col + 1)) + 1 := by omega
          rw [h1, List.getElem?_cons]
          rw [if_neg (by omega)]
          have h2 : (target - (col + 1)) + 1 - 1 = target - (col + 1) := by omega
          rw [h2]
          exact ih inQ [] (col + 1) target (by omega)
      · rw [if_neg hcm, if_neg hcm]
        exact ih inQ (c :: cur) col target hle

theorem tokHeader_spec :
    ∀ (s : List Char) (inQ : Bool) (cur : List Char) (cnt : Nat), cnt ≤ 256 →
      tokHeader s inQ cur cnt =
        ((splitFieldsGo s inQ cur).take (256 - cnt)).map trimTok := by
  intro s
  induction s with
  | nil =>
    intro inQ cur cnt hle
    unfold tokHeader splitFieldsGo
    by_cases h : cnt < 256
    · rw [if_pos h]
      have h1 : 256 - cnt = (256 - cnt - 1) + 1 := by omega
      rw [h1]
      simp
    · rw [if_neg h]
      have h1 : 256 - cnt = 0 := by omega
      rw [h1]
      simp
  | cons c rest ih =>
    intro inQ cur cnt hle
    unfold tokHeader splitFieldsGo
    by_cases hstop : 256 ≤ cnt
    · rw [if_pos hstop]
      have h1 : 256 - cnt = 0 := by omega
      rw [h1]
      simp
    · rw [if_neg hstop]
      by_cases hq : c = '"'
      · rw [if_pos hq, if_pos hq]
        exact ih (!inQ) (c :: cur) cnt hle
      · rw [if_neg hq, if_neg hq]
        by_cases hcm : c = ',' ∧ inQ = false
        · rw [if_pos hcm, if_pos hcm]
          have h1 : 256 - cnt = (256 - (cnt + 1)) + 1 := by omega
          rw [h1, List.take_succ_cons, List.map_cons, ih inQ [] (cnt + 1) (by omega)]
        · rw [if_neg hcm, if_neg hcm]
          exact ih inQ (c :: cur) cnt hle

theorem trimTok_spec (s : List Char) :
    trimTok s = (match s.dropWhile isLeadTrimB with
      | [] => ([] : List Char)
      | c :: _ => if specTrim s = [] then [c] else specTrim s) := by
  unfold trimTok specTrim
  cases hlead : s.dropWhile isLeadTrimB with
  | nil => rfl
  | cons c rest =>
    unfold trimTrail
    cases hdt : dropTrailing isTrailTrimB rest with
    | nil =>
      by_cases hc : isTrailTrimB c
      · simp [dropTrailing, hdt, hc]
      · simp [dropTrailing, hdt, hc]
    | cons x xs =>
      simp [dropTrailing, hdt]

theorem splitFieldsGo_ne_nil : ∀ (s : List Char) (inQ : Bool) (cur : List Char),
    splitFieldsGo s inQ cur ≠ [] := by
  intro s
  induction s with
  | nil => intro inQ cur; simp [splitFieldsGo]
  | cons c rest ih =>
    intro inQ cur
    unfold splitFieldsGo
    by_cases hq : c = '"'
    · rw [if_pos hq]; exact ih (!inQ) (c :: cur)
    · rw [if_neg hq]
      by_cases hcm : c = ',' ∧ inQ = false
      · rw [if_pos hcm]; simp
      · rw [if_neg hcm]; exact ih inQ (c :: cur)

theorem takeUntilNl_append (hdr rest2 : List Char) (h : '\n' ∉ hdr) :
    takeUntilNl (hdr ++ '\n' :: rest2) = hdr := by
  induction hdr with
  | nil => simp [takeUntilNl]
  | cons c t ih =>
    have hc : ¬(c = '\n') := fun he => h (by rw [he]; exact List.mem_cons_self '\n' t)
    have ht : '\n' ∉ t := fun hm => h (List.mem_cons_of_mem c hm)
    simp [takeUntilNl, hc, ih ht]

theorem findNl_append (hdr rest2 : List Char) (h : '\n' ∉ hdr) :
    findNl (hdr ++ '\n' :: rest2) = some rest2 := by
  induction hdr with
  | nil => simp [findNl]
  | cons c t ih =>
    have hc : ¬(c = '\n') := fun he => h (by rw [he]; exact List.mem_cons_self '\n' t)
    have ht : '\n' ∉ t := fun hm => h (List.mem_cons_of_mem c hm)
    simp [findNl, hc, ih ht]

/-- C2 (amended): both the header and the row tokenizers split exactly at
commas seen while the quote flag is off (first two conjuncts: they agree
with the quote-aware splitter, the header one up to the 256-column cap),
and every emitted token is the raw field with surrounding spaces, tabs
and quotes and trailing carriage returns removed, except that a token
which is nonempty after the leading trim but would be emptied by the
trailing trim keeps its first character (third conjunct); on the text
"A,B\n\"x,y\",9\n" with row Absolute(0) and column "A" the returned
value is the string "x,y" (fourth conjunct). -/
theorem c2_quote_aware_tokenization_amended :
    (∀ row target, rowField row target = ((splitFields row)[target]?).map trimTok) ∧
    (∀ hdr, tokHeader hdr false [] 0 = ((splitFields hdr).take 256).map trimTok) ∧
    (∀ s, trimTok s = (match s.dropWhile isLeadTrimB with
      | [] => ([] : List Char)
      | c :: _ => if specTrim s = [] then [c] else specTrim s)) ∧
    nGetCSVDataByColName (("A,B\n\"x,y\",9\n").data) 0 (("A").data) 1024 =
      .ok (("x,y").data) := by
  refine ⟨?_, ?_, trimTok_spec, by decide⟩
  · intro row target
    unfold rowField splitFields
    rw [rowFieldGo_spec row false [] 0 target (by omega)]
    simp
  · intro hdr
    unfold splitFields
    rw [tokHeader_spec hdr false [] 0 (by omega)]

/-- C2 counterexample: a row whose first field is a single carriage
return is returned with the carriage return still in place, while the
trim stated by the claim (specTrim) would remove it. -/
theorem c2_quote_aware_tokenization_counterexample :
    nGetCSVDataByColName (("A,B\n\r,9\n").data) 0 (("A").data) 1024 = .ok ['\r'] ∧
    specTrim ['\r'] = [] := by
  constructor <;> decide

/-- C4: evaluation of the code at the claim inputs.  On the two-row CSV
ending in a newline both spec examples hold (second and third
conjuncts), but on "A\n1\n2", whose final line lacks a terminating
newline, the Last selector returns the field of the second-to-last row
"1" instead of the trailing row "2" (first conjunct): the last-row scan
(lines 275-290) rewinds to pLastRowStart, the row before the final
newline, contradicting the stated contract of nRow = -1. -/
theorem c4_last_row_bug_eval :
    nGetCSVDataByColName (("A\n1\n2").data) (-1) (("A").data) 1024 = .ok ['1'] ∧
    nGetCSVDataByColName (("TimeStamp,CycleCount\n2025-05-14 20:15:23,253\n").data) (-1)
      (("CycleCount").data) 1024 = .ok (("253").data) ∧
    nGetCSVDataByColName (("TimeStamp,CycleCount\n2025-05-14 20:15:23,253\n").data) 0
      (("TimeStamp").data) 1024 = .ok (("2025-05-14 20:15:23").data) := by
  refine ⟨by decide, by decide, by decide⟩

/-- C5 (amended): a column name absent from the header fails with
code -3, while a selected row with fewer fields than the target index
fails with the distinct code -4 (column not found in row); both are
plain error returns of the same function but are distinguishable
codes. -/
theorem c5_ragged_row_amended (buf : List Char) (nRow : Int) (col : List Char)
    (nBufSize : Nat) (hsz : ¬(nBufSize = 0)) :
    ((colsOf buf).findIdx? (· == col) = none →
      nGetCSVDataByColName buf nRow col nBufSize = .err (-3)) ∧
    (∀ t rowStart, (colsOf buf).findIdx? (· == col) = some t →
      selectedRow nRow (afterHdrOf buf) = some rowStart →
      rowField (takeUntilNl rowStart) t = none →
      nGetCSVDataByColName buf nRow col nBufSize = .err (-4)) := by
  unfold nGetCSVDataByColName
  rw [if_neg hsz]
  constructor
  · intro h
    rw [h]
  · intro t rowStart h1 h2 h3
    simp only [h1, h2, h3]

/-- Witness for C5: the ragged row "1" of a two-column CSV yields -4 for
column B. -/
theorem c5_ragged_row_amended_witness :
    ¬((1024 : Nat) = 0) ∧
    nGetCSVDataByColName (("A,B\n1\n").data) 0 (("B").data) 1024 = .err (-4) :=
  ⟨by decide,
   (c5_ragged_row_amended (("A,B\n1\n").data) 0 (("B").data) 1024 (by decide)).2
     1 (("1\n").data) (by decide) (by decide) (by decide)⟩

/-- C5 counterexample: on the same CSV the ragged-row failure (-4) and
the absent-column failure (-3) are different error codes, so the ragged
row does not fail with the same error kind as an absent column name. -/
theorem c5_ragged_row_counterexample :
    nGetCSVDataByColName (("A,B\n1\n").data) 0 (("B").data) 1024 = .err (-4) ∧
    nGetCSVDataByColName (("A,B\n1\n").data) 0 (("C").data) 1024 = .err (-3) ∧
    ¬((-4 : Int) = -3) := by
  refine ⟨by decide, by decide, by decide⟩

/-- C6 (amended): when the header holds more than MAX_COLUMNS = 256
fields, the recorded column list is exactly the first 256 fields
(trimmed) and has length 256; the fields past the cap are dropped and no
error is raised for the excess. -/
theorem c6_column_ceiling_amended (buf : List Char)
    (h : 256 < (splitFields (headerOf buf)).length) :
    colsOf buf = ((splitFields (headerOf buf)).take 256).map trimTok ∧
    (colsOf buf).length = 256 := by
  have key : colsOf buf = ((splitFields (headerOf buf)).take 256).map trimTok := by
    unfold colsOf splitFields
    rw [tokHeader_spec (headerOf buf) false [] 0 (by omega)]
  refine ⟨key, ?_⟩
  rw [key]
  simp
  omega

/-- C6 counterexample: a CSV whose header has 257 columns does not fail:
with the target among the first 256 columns the lookup succeeds and
returns the data value, so no TooManyColumns failure is produced. -/
theorem c6_column_ceiling_counterexample :
    256 < (splitFields (headerOf
      ('A' :: (List.replicate 256 ((",x").data)).flatten ++ ("\n7\n").data))).length ∧
    nGetCSVDataByColName
      ('A' :: (List.replicate 256 ((",x").data)).flatten ++ ("\n7\n").data)
      0 (['A']) 1024 = .ok ['7'] := by
  constructor <;> decide

/-- Witness for C6: the 257-column header records exactly 256
columns. -/
theorem c6_column_ceiling_amended_witness :
    256 < (splitFields (headerOf
      ('A' :: (List.replicate 256 ((",x").data)).flatten ++ ("\n7\n").data))).length ∧
    (colsOf ('A' :: (List.replicate 256 ((",x").data)).flatten ++ ("\n7\n").data)).length
      = 256 :=
  ⟨by decide,
   (c6_column_ceiling_amended
     ('A' :: (List.replicate 256 ((",x").data)).flatten ++ ("\n7\n").data)
     (by decide)).2⟩

/-- C10: on a CSV consisting of one header line terminated by a newline
and no data rows, the Last selector does not fail with the row-not-found
code: the empty text after the header is treated as the last row, the
first header column returns success with the empty string, and any
column at an index greater than zero fails with the ragged-row code
-4. -/
theorem c10_header_only_last_row (hdr : List Char) (hnl : '\n' ∉ hdr) :
    nGetCSVDataByColName (hdr ++ ['\n']) (-1) ((colsOf (hdr ++ ['\n'])).headD []) 1024 =
      .ok [] ∧
    (∀ name t, (colsOf (hdr ++ ['\n'])).findIdx? (· == name) = some t → 0 < t →
      nGetCSVDataByColName (hdr ++ ['\n']) (-1) name 1024 = .err (-4)) := by
  have hA : afterHdrOf (hdr ++ ['\n']) = [] := by
    unfold afterHdrOf
    rw [findNl_append hdr [] hnl]
    rfl
  have hsel : selectedRow (-1) (afterHdrOf (hdr ++ ['\n'])) = some [] := by
    rw [hA]
    rfl
  have hlen : 0 < (colsOf (hdr ++ ['\n'])).length := by
    unfold colsOf
    rw [tokHeader_spec _ false [] 0 (by omega)]
    rw [List.length_map, List.length_take]
    have hpos := List.length_pos.mpr (splitFieldsGo_ne_nil (headerOf (hdr ++ ['\n'])) false [])
    omega
  constructor
  · cases hc : colsOf (hdr ++ ['\n']) with
    | nil => rw [hc] at hlen; simp at hlen
    | cons c0 cl =>
      have hfind0 : (colsOf (hdr ++ ['\n'])).findIdx? (· == (c0 :: cl).headD []) = some 0 := by
        rw [hc]
        simp [List.findIdx?_cons]
      unfold nGetCSVDataByColName
      rw [if_neg (by omega : ¬(1024 = 0))]
      rw [hc] at hfind0 ⊢
      simp only [hfind0]
      simp only [hsel]
      rfl
  · intro name t hfind ht
    unfold nGetCSVDataByColName
    rw [if_neg (by omega : ¬(1024 = 0))]
    simp only [hfind, hsel]
    have hrf : rowField (takeUntilNl []) t = none := by
      show rowFieldGo [] false [] 0 t = none
      unfold rowFieldGo
      rw [if_neg (by omega : ¬(0 = t))]
    simp only [hrf]

/-- Witness for C10: the header-only CSV "A,B\n" returns the empty
string for column A under Last and -4 for column B. -/
theorem c10_header_only_last_row_witness :
    ('\n' ∉ ("A,B").data) ∧
    nGetCSVDataByColName (("A,B").data ++ ['\n']) (-1)
      ((colsOf (("A,B").data ++ ['\n'])).headD []) 1024 = .ok [] ∧
    nGetCSVDataByColName (("A,B").data ++ ['\n']) (-1) (("B").data) 1024 = .err (-4) :=
  ⟨by decide,
   (c10_header_only_last_row (("A,B").data) (by decide)).1,
   (c10_header_only_last_row (("A,B").data) (by decide)).2 (("B").data) 1
     (by decide) (by decide)⟩

/-! ## Lemmas about the two-pass latest-file selection -/

theorem bLatestBdcDailyMatcher_eq (n : List Char) (st : MatcherDataT) :
    bLatestBdcDailyMatcher n st = (false, matcherStep st (candDate st.szPref n)) := by
  unfold bLatestBdcDailyMatcher candDate
  by_cases h1 : leadsWith st.szPref n = false
  · rw [if_pos h1, if_pos h1]
    rfl
  · rw [if_neg h1, if_neg h1]
    cases h2 : findUnderscore (n.drop st.szPref.length) with
    | none => rfl
    | some dp =>
      dsimp only
      by_cases h3 : 259 < n.length
      · rw [if_pos h3, if_pos h3]
        rfl
      · rw [if_neg h3, if_neg h3]
        cases h4 : bParseDate dp with
        | ok d =>
          dsimp only
          by_cases h5 : st.bFoundMatch = false ∨ st.stLatestFile.tTimestamp < d.tTimestamp
          · rw [if_pos h5]
            unfold matcherStep
            dsimp only
            rw [if_pos h5]
          · rw [if_neg h5]
            unfold matcherStep
            dsimp only
            rw [if_neg h5]
        | malformed => rfl
        | outOfRange => rfl

theorem bLatestBdcDailyMatcher_fst (n : List Char) (st : MatcherDataT) :
    (bLatestBdcDailyMatcher n st).1 = false := by
  rw [bLatestBdcDailyMatcher_eq]

theorem run_declining {σ : Type} (m : List Char → σ → Bool × σ)
    (hm : ∀ n st, (m n st).1 = false) (dir : List Char) :
    ∀ (entries : List TarHeaderT) (st : σ),
      (nExtractFromTargzWithCallback m dir entries st).2 =
        (matcherCalls dir entries).foldl (fun s n => (m n s).2) st ∧
      (∀ nm, TarEvent.extract nm ∉ (nExtractFromTargzWithCallback m dir entries st).1) := by
  intro entries
  induction entries with
  | nil =>
    intro st
    refine ⟨rfl, ?_⟩
    intro nm
    rw [nExtractFromTargzWithCallback]
    simp
  | cons h rest ih =>
    intro st
    rw [nExtractFromTargzWithCallback, matcherCalls]
    by_cases h0 : h.szName = []
    · rw [if_pos h0, if_pos h0]
      refine ⟨rfl, ?_⟩
      intro nm
      simp
    · rw [if_neg h0, if_neg h0]
      by_cases h1 : isUnsafeName h.szName = true
      · rw [if_pos h1, if_pos h1]
        refine ⟨(ih st).1, ?_⟩
        intro nm
        simp only [List.mem_cons]
        rintro (he | he | he)
        · exact TarEvent.noConfusion he
        · exact TarEvent.noConfusion he
        · exact (ih st).2 nm he
      · rw [if_neg h1, if_neg h1]
        by_cases h2 : (h.cTypeflag = '0' ∨ h.cTypeflag = nulC) ∧
            bIsInDirectory h.szName dir = true
        · rw [if_pos h2, if_pos h2]
          by_cases h3 : baseNameOf h.szName = []
          · rw [if_pos h3, if_pos h3]
            refine ⟨(ih st).1, ?_⟩
            intro nm
            simp only [List.mem_cons]
            rintro (he | he)
            · exact TarEvent.noConfusion he
            · exact (ih st).2 nm he
          · rw [if_neg h3, if_neg h3]
            rw [if_pos (hm (baseNameOf h.szName) st)]
            refine ⟨(ih _).1, ?_⟩
            intro nm
            simp only [List.mem_cons]
            rintro (he | he | he)
            · exact TarEvent.noConfusion he
            · exact TarEvent.noConfusion he
            · exact (ih _).2 nm he
        · rw [if_neg h2, if_neg h2]
          refine ⟨(ih st).1, ?_⟩
          intro nm
          simp only [List.mem_cons]
          rintro (he | he)
          · exact TarEvent.noConfusion he
          · exact (ih st).2 nm he

theorem fold_found (pre : List Char) :
    ∀ (names : List (List Char)) (st : MatcherDataT), st.szPref = pre →
      st.bFoundMatch = true →
      (names.foldl (fun s n => (bLatestBdcDailyMatcher n s).2) st).szPref = pre ∧
      (names.foldl (fun s n => (bLatestBdcDailyMatcher n s).2) st).bFoundMatch = true ∧
      IsFirstMax (st.stLatestFile :: names.filterMap (candDate pre))
        (names.foldl (fun s n => (bLatestBdcDailyMatcher n s).2) st).stLatestFile := by
  intro names
  induction names with
  | nil =>
    intro st hpre hfound
    refine ⟨hpre, hfound, [], [], rfl, by simp, by simp⟩
  | cons n names ih =>
    intro st hpre hfound
    have hstep : (bLatestBdcDailyMatcher n st).2 = matcherStep st (candDate pre n) := by
      rw [bLatestBdcDailyMatcher_eq, hpre]
    simp only [List.foldl_cons, List.filterMap_cons, hstep]
    cases hc : candDate pre n with
    | none =>
      simp only [matcherStep]
      exact ih st hpre hfound
    | some d =>
      by_cases hcond : st.bFoundMatch = false ∨ st.stLatestFile.tTimestamp < d.tTimestamp
      · have hlt : st.stLatestFile.tTimestamp < d.tTimestamp := by
          rcases hcond with hcond | hcond
          · rw [hfound] at hcond; exact absurd hcond (by simp)
          · exact hcond
        have hst2 : matcherStep st (some d) =
            { st with stLatestFile := d, bFoundMatch := true } := by
          simp only [matcherStep]
          rw [if_pos hcond]
        rw [hst2]
        obtain ⟨hp2, hf2, l1, l2, heq, hstrict, hle⟩ :=
          ih { st with stLatestFile := d, bFoundMatch := true } hpre rfl
        refine ⟨hp2, hf2, st.stLatestFile :: l1, l2, ?_, ?_, hle⟩
        · rw [List.cons_append, ← heq]
        · intro x hx
          rcases List.mem_cons.mp hx with hx | hx
          · subst hx
            have hdle : d.tTimestamp ≤
                ((names.foldl (fun s n => (bLatestBdcDailyMatcher n s).2)
                  { st with stLatestFile := d, bFoundMatch := true }).stLatestFile).tTimestamp := by
              cases l1 with
              | nil =>
                simp only [List.nil_append] at heq
                injection heq with hw hl2
                exact le_of_eq (congrArg FileDateV.tTimestamp hw)
              | cons a t =>
                simp only [List.cons_append] at heq
                injection heq with ha hrest
                have h5 := hstrict a (List.mem_cons_self a t)
                rw [← ha] at h5
                exact le_of_lt h5
            exact lt_of_lt_of_le hlt hdle
          · exact hstrict x hx
      · have hst2 : matcherStep st (some d) = st := by
          simp only [matcherStep]
          rw [if_neg hcond]
        rw [hst2]
        have hge : d.tTimestamp ≤ st.stLatestFile.tTimestamp := by
          by_contra hlt
          exact hcond (Or.inr (lt_of_not_le hlt))
        obtain ⟨hp2, hf2, l1, l2, heq, hstrict, hle⟩ := ih st hpre hfound
        cases l1 with
        | nil =>
          simp only [List.nil_append] at heq
          injection heq with hw hl2
          refine ⟨hp2, hf2, [], d :: l2, ?_, by simp, ?_⟩
          · simp only [List.nil_append]
            rw [← hw, hl2]
          · intro x hx
            rcases List.mem_cons.mp hx with hx | hx
            · subst hx
              rw [← hw]
              exact hge
            · exact hle x hx
        | cons a t =>
          simp only [List.cons_append] at heq
          injection heq with ha hrest
          have hastrict := hstrict a (List.mem_cons_self a t)
          rw [← ha] at hastrict
          refine ⟨hp2, hf2, st.stLatestFile :: d :: t, l2, ?_, ?_, hle⟩
          · simp only [List.cons_append]
            rw [hrest]
          · intro x hx
            rcases List.mem_cons.mp hx with hx | hx
            · subst hx
              exact hastrict
            · rcases List.mem_cons.mp hx with hx | hx
              · subst hx
                exact lt_of_le_of_lt hge hastrict
              · exact hstrict x (List.mem_cons_of_mem a hx)

theorem fold_notfound (pre : List Char) :
    ∀ (names : List (List Char)) (st : MatcherDataT), st.szPref = pre →
      st.bFoundMatch = false →
      (names.filterMap (candDate pre) = [] →
        names.foldl (fun s n => (bLatestBdcDailyMatcher n s).2) st = st) ∧
      (names.filterMap (candDate pre) ≠ [] →
        (names.foldl (fun s n => (bLatestBdcDailyMatcher n s).2) st).bFoundMatch = true ∧
        IsFirstMax (names.filterMap (candDate pre))
          (names.foldl (fun s n => (bLatestBdcDailyMatcher n s).2) st).stLatestFile) := by
  intro names
  induction names with
  | nil =>
    intro st hpre hfound
    exact ⟨fun _ => rfl, fun h => absurd rfl h⟩
  | cons n names ih =>
    intro st hpre hfound
    have hstep : (bLatestBdcDailyMatcher n st).2 = matcherStep st (candDate pre n) := by
      rw [bLatestBdcDailyMatcher_eq, hpre]
    simp only [List.foldl_cons, List.filterMap_cons, hstep]
    cases hc : candDate pre n with
    | none =>
      simp only [matcherStep]
      exact ih st hpre hfound
    | some d =>
      have hst2 : matcherStep st (some d) =
          { st with stLatestFile := d, bFoundMatch := true } := by
        simp only [matcherStep]
        rw [if_pos (Or.inl hfound)]
      rw [hst2]
      constructor
      · intro habs
        exact absurd habs (by simp)
      · intro _
        obtain ⟨_, hf2, hmax⟩ :=
          fold_found pre names { st with stLatestFile := d, bFoundMatch := true } hpre rfl
        exact ⟨hf2, hmax⟩

/-- C1: over any archive, the candidate records produced by the
observation pass (base filenames handed to the matcher that pass the
prefix test, the underscore search and the date parse; failed parses are
skipped and contribute nothing while the scan continues) determine the
selection: when at least one candidate parsed, the final matcher state
is marked found and its recorded file is the first-encountered candidate
with the maximal parsed timestamp (strictly-greater comparison keeps the
earlier on ties); when no candidate parsed, nExtractLatestBdcDailyFile
returns -1 (NoMatchingFile) and no entry is ever extracted. -/
theorem c1_latest_selection (entries : List TarHeaderT) :
    ((matcherCalls bdcDir entries).filterMap (candDate bdcPre) ≠ [] →
      (nExtractFromTargzWithCallback bLatestBdcDailyMatcher bdcDir entries
        initMatcherData).2.bFoundMatch = true ∧
      IsFirstMax ((matcherCalls bdcDir entries).filterMap (candDate bdcPre))
        (nExtractFromTargzWithCallback bLatestBdcDailyMatcher bdcDir entries
          initMatcherData).2.stLatestFile) ∧
    ((matcherCalls bdcDir entries).filterMap (candDate bdcPre) = [] →
      (nExtractLatestBdcDailyFile entries).1 = -1 ∧
      ∀ nm, TarEvent.extract nm ∉ (nExtractLatestBdcDailyFile entries).2) := by
  have hrun := run_declining bLatestBdcDailyMatcher bLatestBdcDailyMatcher_fst bdcDir
    entries initMatcherData
  have hnf := fold_notfound bdcPre (matcherCalls bdcDir entries) initMatcherData rfl rfl
  constructor
  · intro hne
    rw [hrun.1]
    exact hnf.2 hne
  · intro heq
    have hst : (nExtractFromTargzWithCallback bLatestBdcDailyMatcher bdcDir entries
        initMatcherData).2 = initMatcherData := by
      rw [hrun.1]
      exact hnf.1 heq
    have hcond : (nExtractFromTargzWithCallback bLatestBdcDailyMatcher bdcDir entries
        initMatcherData).2.bFoundMatch = false := by
      rw [hst]
      rfl
    constructor
    · unfold nExtractLatestBdcDailyFile
      rw [if_pos hcond]
    · intro nm
      unfold nExtractLatestBdcDailyFile
      rw [if_pos hcond]
      exact hrun.2 nm

/-- Witness for C1: the spec example archive with dates 2025-05-12,
2025-05-14, 2025-05-13 in that stream order has parsed candidates, and
the selector records the 2025-05-14 file. -/
theorem c1_latest_selection_witness :
    ((matcherCalls bdcDir
      [⟨("logs/BatteryBDC/BDC_Daily_version_2025-05-12_20:30:45.csv").data, ("777").data, '0'⟩,
       ⟨("logs/BatteryBDC/BDC_Daily_version_2025-05-14_20:30:45.csv").data, ("777").data, '0'⟩,
       ⟨("logs/BatteryBDC/BDC_Daily_version_2025-05-13_20:30:45.csv").data, ("777").data, '0'⟩]).filterMap
        (candDate bdcPre) ≠ []) ∧
    ((nExtractFromTargzWithCallback bLatestBdcDailyMatcher bdcDir
      [⟨("logs/BatteryBDC/BDC_Daily_version_2025-05-12_20:30:45.csv").data, ("777").data, '0'⟩,
       ⟨("logs/BatteryBDC/BDC_Daily_version_2025-05-14_20:30:45.csv").data, ("777").data, '0'⟩,
       ⟨("logs/BatteryBDC/BDC_Daily_version_2025-05-13_20:30:45.csv").data, ("777").data, '0'⟩]
      initMatcherData).2.bFoundMatch = true ∧
     IsFirstMax ((matcherCalls bdcDir
      [⟨("logs/BatteryBDC/BDC_Daily_version_2025-05-12_20:30:45.csv").data, ("777").data, '0'⟩,
       ⟨("logs/BatteryBDC/BDC_Daily_version_2025-05-14_20:30:45.csv").data, ("777").data, '0'⟩,
       ⟨("logs/BatteryBDC/BDC_Daily_version_2025-05-13_20:30:45.csv").data, ("777").data, '0'⟩]).filterMap
        (candDate bdcPre))
       (nExtractFromTargzWithCallback bLatestBdcDailyMatcher bdcDir
      [⟨("logs/BatteryBDC/BDC_Daily_version_2025-05-12_20:30:45.csv").data, ("777").data, '0'⟩,
       ⟨("logs/BatteryBDC/BDC_Daily_version_2025-05-14_20:30:45.csv").data, ("777").data, '0'⟩,
       ⟨("logs/BatteryBDC/BDC_Daily_version_2025-05-13_20:30:45.csv").data, ("777").data, '0'⟩]
        initMatcherData).2.stLatestFile) ∧
    (nExtractFromTargzWithCallback bLatestBdcDailyMatcher bdcDir
      [⟨("logs/BatteryBDC/BDC_Daily_version_2025-05-12_20:30:45.csv").data, ("777").data, '0'⟩,
       ⟨("logs/BatteryBDC/BDC_Daily_version_2025-05-14_20:30:45.csv").data, ("777").data, '0'⟩,
       ⟨("logs/BatteryBDC/BDC_Daily_version_2025-05-13_20:30:45.csv").data, ("777").data, '0'⟩]
      initMatcherData).2.stLatestFile.szFilename =
        ("BDC_Daily_version_2025-05-14_20:30:45.csv").data :=
  ⟨by decide,
   (c1_latest_selection
      [⟨("logs/BatteryBDC/BDC_Daily_version_2025-05-12_20:30:45.csv").data, ("777").data, '0'⟩,
       ⟨("logs/BatteryBDC/BDC_Daily_version_2025-05-14_20:30:45.csv").data, ("777").data, '0'⟩,
       ⟨("logs/BatteryBDC/BDC_Daily_version_2025-05-13_20:30:45.csv").data, ("777").data, '0'⟩]).1
     (by decide),
   by decide⟩

/-! ## Lemmas about the date parser -/

theorem digit_not_ws {c : Char} (h : isDigB c = true) : isWsB c = false := by
  unfold isDigB at h
  simp only [Bool.and_eq_true, decide_eq_true_eq] at h
  unfold isWsB
  simp only [Bool.or_eq_false_iff, decide_eq_false_iff_not]
  omega

theorem digit_not_dash {c : Char} (h : isDigB c = true) : ¬(c = '-') := by
  intro he
  rw [he] at h
  revert h
  decide

theorem digit_not_plus {c : Char} (h : isDigB c = true) : ¬(c = '+') := by
  intro he
  rw [he] at h
  revert h
  decide

theorem digitRun_stop (rest : List Char)
    (hr : ∀ c t, rest = c :: t → isDigB c = false) :
    ∀ acc, digitRun rest acc = (acc, rest) := by
  intro acc
  cases rest with
  | nil => rfl
  | cons c t =>
    rw [digitRun, hr c t rfl]
    simp

theorem scanInt_two (a b : Char) (rest : List Char)
    (ha : isDigB a = true) (hb : isDigB b = true)
    (hr : ∀ c t, rest = c :: t → isDigB c = false) :
    scanInt (a :: b :: rest) =
      some (((digitValN a * 10 + digitValN b : Nat) : Int), rest) := by
  have hwa : ¬(isWsB a = true) := by rw [digit_not_ws ha]; simp
  rw [scanInt, List.dropWhile_cons, if_neg hwa]
  dsimp only
  rw [if_neg (digit_not_dash ha), if_neg (digit_not_plus ha)]
  rw [scanUIntCore, if_pos ha]
  rw [digitRun, if_pos ha, digitRun, if_pos hb, digitRun_stop rest hr]
  have hv : (0 * 10 + (a.toNat - 48)) * 10 + (b.toNat - 48) =
      digitValN a * 10 + digitValN b := by
    unfold digitValN
    ring
  rw [hv]
  rfl

theorem scanInt_four (y1 y2 y3 y4 : Char) (rest : List Char)
    (h1 : isDigB y1 = true) (h2 : isDigB y2 = true)
    (h3 : isDigB y3 = true) (h4 : isDigB y4 = true)
    (hr : ∀ c t, rest = c :: t → isDigB c = false) :
    scanInt (y1 :: y2 :: y3 :: y4 :: rest) =
      some (((((digitValN y1 * 10 + digitValN y2) * 10 + digitValN y3) * 10 +
        digitValN y4 : Nat) : Int), rest) := by
  have hwa : ¬(isWsB y1 = true) := by rw [digit_not_ws h1]; simp
  rw [scanInt, List.dropWhile_cons, if_neg hwa]
  dsimp only
  rw [if_neg (digit_not_dash h1), if_neg (digit_not_plus h1)]
  rw [scanUIntCore, if_pos h1]
  rw [digitRun, if_pos h1, digitRun, if_pos h2, digitRun, if_pos h3, digitRun, if_pos h4,
    digitRun_stop rest hr]
  have hv : (((0 * 10 + (y1.toNat - 48)) * 10 + (y2.toNat - 48)) * 10 +
      (y3.toNat - 48)) * 10 + (y4.toNat - 48) =
      ((digitValN y1 * 10 + digitValN y2) * 10 + digitValN y3) * 10 + digitValN y4 := by
    unfold digitValN
    ring
  rw [hv]
  rfl

theorem strictShape_sscanf (s : List Char) (c : Int × Int × Int × Int × Int × Int)
    (h : strictShapeParse s = some c) : sscanfDate s = some c := by
  unfold strictShapeParse at h
  split at h
  case _ y1 y2 y3 y4 c1 m1 m2 c2 d1 d2 c3 h1 h2 c4 n1 n2 c5 s1 s2 =>
    split at h
    case isTrue hcond =>
      obtain ⟨hy1, hy2, hy3, hy4, hm1, hm2, hd1, hd2, hh1, hh2, hn1, hn2, hs1, hs2,
        hc1, hc2, hc3, hc4, hc5⟩ := hcond
      subst hc1 hc2 hc3 hc4 hc5
      injection h with hc
      subst hc
      have hstop1 : ∀ c t, ('-' :: m1 :: m2 :: '-' :: d1 :: d2 :: '_' :: h1 :: h2 :: ':' ::
          n1 :: n2 :: ':' :: s1 :: s2 :: []) = c :: t → isDigB c = false := by
        intro c t hct
        injection hct with he _
        rw [← he]
        decide
      have hstop2 : ∀ c t, ('-' :: d1 :: d2 :: '_' :: h1 :: h2 :: ':' ::
          n1 :: n2 :: ':' :: s1 :: s2 :: []) = c :: t → isDigB c = false := by
        intro c t hct
        injection hct with he _
        rw [← he]
        decide
      have hstop3 : ∀ c t, ('_' :: h1 :: h2 :: ':' :: n1 :: n2 :: ':' :: s1 :: s2 :: []) =
          c :: t → isDigB c = false := by
        intro c t hct
        injection hct with he _
        rw [← he]
        decide
      have hstop4 : ∀ c t, (':' :: n1 :: n2 :: ':' :: s1 :: s2 :: []) = c :: t →
          isDigB c = false := by
        intro c t hct
        injection hct with he _
        rw [← he]
        decide
      have hstop5 : ∀ c t, (':' :: s1 :: s2 :: []) = c :: t → isDigB c = false := by
        intro c t hct
        injection hct with he _
        rw [← he]
        decide
      have hstop6 : ∀ c t, ([] : List Char) = c :: t → isDigB c = false := by
        intro c t hct
        exact List.noConfusion hct
      unfold sscanfDate
      rw [scanInt_four y1 y2 y3 y4 _ hy1 hy2 hy3 hy4 hstop1]
      dsimp only
      rw [litCh, if_pos rfl]
      dsimp only
      rw [scanInt_two m1 m2 _ hm1 hm2 hstop2]
      dsimp only
      rw [litCh, if_pos rfl]
      dsimp only
      rw [scanInt_two d1 d2 _ hd1 hd2 hstop3]
      dsimp only
      rw [litCh, if_pos rfl]
      dsimp only
      rw [scanInt_two h1 h2 _ hh1 hh2 hstop4]
      dsimp only
      rw [litCh, if_pos rfl]
      dsimp only
      rw [scanInt_two n1 n2 _ hn1 hn2 hstop5]
      dsimp only
      rw [litCh, if_pos rfl]
      dsimp only
      rw [scanInt_two s1 s2 _ hs1 hs2 hstop6]
    case isFalse =>
      exact absurd h (by simp)
  case _ =>
    exact absurd h (by simp)

/-- C3 counterexample: the input "2025-05-14_20:30:45.csv" does not
match the exact shape YYYY-MM-DD_HH:MM:SS (it has trailing characters),
yet bParseDate succeeds on it, because sscanf_s with format
%d-%d-%d_%d:%d:%d ignores everything after the sixth conversion.  The
program in fact relies on this: the date text handed to bParseDate by
the matcher always carries the ".csv" suffix. -/
theorem c3_date_parsing_counterexample :
    strictShapeParse (("2025-05-14_20:30:45.csv").data) = none ∧
    bParseDate (("2025-05-14_20:30:45.csv").data) =
      .ok ⟨2025, 5, 14, 20, 30, 45, [], mktimeModel 2025 5 14 20 30 45⟩ := by
  constructor <;> decide

/-- C3 (amended): bParseDate succeeds exactly when the permissive
sscanf-style match (six decimal integers, each with optional leading
whitespace and sign, separated by the literal characters of
%d-%d-%d_%d:%d:%d, with arbitrary trailing input ignored) yields six
components within the ranges year 1970..2100, month 1..12, day 1..31,
hour 0..23, minute 0..59, second 0..59; a failed match is the Malformed
path and an in-shape component outside its range is the OutOfRange path
(first two conjuncts); every input of the exact shape
YYYY-MM-DD_HH:MM:SS is accepted by the permissive match with the
expected component values, so the claim's positive direction survives
(third conjunct). -/
theorem c3_date_parsing_amended (s : List Char) :
    (sscanfDate s = none → bParseDate s = .malformed) ∧
    (∀ y mo d h mi se, sscanfDate s = some (y, mo, d, h, mi, se) →
      (dateInRange y mo d h mi se →
        bParseDate s = .ok ⟨y, mo, d, h, mi, se, [], mktimeModel y mo d h mi se⟩) ∧
      (¬dateInRange y mo d h mi se → bParseDate s = .outOfRange)) ∧
    (∀ cmp, strictShapeParse s = some cmp → sscanfDate s = some cmp) := by
  refine ⟨?_, ?_, strictShape_sscanf s⟩
  · intro h
    unfold bParseDate
    rw [h]
  · intro y mo d h mi se hs
    unfold bParseDate
    rw [hs]
    dsimp only
    constructor
    · intro hr
      have hcond : ¬(y < 1970 ∨ 2100 < y ∨ mo < 1 ∨ 12 < mo ∨ d < 1 ∨ 31 < d ∨
          h < 0 ∨ 23 < h ∨ mi < 0 ∨ 59 < mi ∨ se < 0 ∨ 59 < se) := by
        unfold dateInRange at hr
        omega
      rw [if_neg hcond]
    · intro hr
      have hcond : (y < 1970 ∨ 2100 < y ∨ mo < 1 ∨ 12 < mo ∨ d < 1 ∨ 31 < d ∨
          h < 0 ∨ 23 < h ∨ mi < 0 ∨ 59 < mi ∨ se < 0 ∨ 59 < se) := by
        unfold dateInRange at hr
        omega
      rw [if_pos hcond]

/-- Witness for C3: the in-range date 2025-05-14 20:30:45 parses to its
components; the out-of-range month 13 takes the OutOfRange path; "bad"
takes the Malformed path. -/
theorem c3_date_parsing_amended_witness :
    (sscanfDate (("2025-05-14_20:30:45").data) = some (2025, 5, 14, 20, 30, 45) ∧
     bParseDate (("2025-05-14_20:30:45").data) =
       .ok ⟨2025, 5, 14, 20, 30, 45, [], mktimeModel 2025 5 14 20 30 45⟩) ∧
    bParseDate (("2025-13-01_00:00:00").data) = .outOfRange ∧
    bParseDate (("bad").data) = .malformed :=
  ⟨⟨by decide,
    ((c3_date_parsing_amended (("2025-05-14_20:30:45").data)).2.1
      2025 5 14 20 30 45 (by decide)).1 (by decide)⟩,
   ((c3_date_parsing_amended (("2025-13-01_00:00:00").data)).2.1
      2025 13 1 0 0 0 (by decide)).2 (by decide),
   (c3_date_parsing_amended (("bad").data)).1 (by decide)⟩
